import Mathlib

/-!
Verification of the prediction pipeline of the CRIME-APP dashboard
(`src/app.py`): risk classification thresholds, top-5 ranking, feature-row
construction, categorical encoding, feature alignment, artifact loading,
caching, error propagation and alert-tier selection, shallowly embedded
in Lean.

Scores are modelled as rationals (the program only ever compares scores
against the constant thresholds 80 and 150, so ordered-field comparisons
are the only float behaviour that matters). Pandas single-row DataFrames
are modelled as association lists from column name to value; column
assignment (`df[col] = v`) replaces an existing column in place or appends
a new one at the end, as pandas does.
-/

namespace CrimeApp

/-- A cell value of the one-row feature DataFrame: a raw string label
(before encoding) or a numeric value (year, defaults, encoded codes). -/
inductive Val where
  | str (s : String)
  | num (q : ℚ)
deriving DecidableEq, Repr

/-- The three risk tiers of `app.py` (lines 166-174). -/
inductive RiskLabel where
  | High
  | Moderate
  | Low
deriving DecidableEq, Repr

/-- Risk classification of a score, from the branch at `app.py:167-174`:
`if score > 150` → High, `elif score > 80` → Moderate, `else` → Low. -/
def classify (score : ℚ) : RiskLabel :=
  if score > 150 then .High
  else if score > 80 then .Moderate
  else .Low

/-- Stable descending insertion of one `(crime_type, score)` pair:
`x` is placed before the first element whose score is `≤ x`'s, so an
earlier-input element always stays before equal-scored later ones. -/
def insertDesc (x : String × ℚ) : List (String × ℚ) → List (String × ℚ)
  | [] => [x]
  | y :: ys => if x.2 ≥ y.2 then x :: y :: ys else y :: insertDesc x ys

/-- Stable sort by score descending, the semantics of
`sorted(results, key=lambda x: x[1], reverse=True)` at `app.py:159`
(CPython's sort is stable, and `reverse=True` preserves stability). -/
def sortDesc : List (String × ℚ) → List (String × ℚ)
  | [] => []
  | x :: xs => insertDesc x (sortDesc xs)

/-- `top5 = sorted(results, key=lambda x: x[1], reverse=True)[:5]`
(`app.py:159`). -/
def rank (results : List (String × ℚ)) : List (String × ℚ) :=
  (sortDesc results).take 5

/-- The alert banner tiers of `app.py:180-189`. -/
inductive Alert where
  | high
  | moderate
  | stable
deriving DecidableEq, Repr

/-- The `high_risk_detected` / `moderate_risk_detected` flags, computed by
the display loop over the top-5 entries (`app.py:163-174`): the flags start
`False` and each entry sets the flag of the branch its score falls in. -/
def riskFlags (top5 : List (String × ℚ)) : Bool × Bool :=
  top5.foldl
    (fun f x =>
      if x.2 > 150 then (true, f.2)
      else if x.2 > 80 then (f.1, true)
      else f)
    (false, false)

/-- The priority-ordered alert selection of `app.py:180-189`:
`if high_risk_detected` → high, `elif moderate_risk_detected` → moderate,
`else` → stable. -/
def emitAlert (top5 : List (String × ℚ)) : Alert :=
  if (riskFlags top5).1 then .high
  else if (riskFlags top5).2 then .moderate
  else .stable

theorem insertDesc_length (x : String × ℚ) (l : List (String × ℚ)) :
    (insertDesc x l).length = l.length + 1 := by
  induction l with
  | nil => rfl
  | cons y ys ih =>
    by_cases h : x.2 ≥ y.2 <;> simp [insertDesc, h, ih]

theorem sortDesc_length (l : List (String × ℚ)) :
    (sortDesc l).length = l.length := by
  induction l with
  | nil => rfl
  | cons x xs ih => simp [sortDesc, insertDesc_length, ih]

theorem mem_insertDesc {a x : String × ℚ} {l : List (String × ℚ)} :
    a ∈ insertDesc x l ↔ a = x ∨ a ∈ l := by
  induction l with
  | nil => simp [insertDesc]
  | cons y ys ih =>
    by_cases h : x.2 ≥ y.2
    · simp [insertDesc, h]
    · simp [insertDesc, h, ih]
      tauto

theorem insertDesc_sorted {x : String × ℚ} {l : List (String × ℚ)}
    (hl : List.Sorted (fun a b : String × ℚ => a.2 ≥ b.2) l) :
    List.Sorted (fun a b : String × ℚ => a.2 ≥ b.2) (insertDesc x l) := by
  induction l with
  | nil => simp [insertDesc]
  | cons y ys ih =>
    rw [List.sorted_cons] at hl
    by_cases h : x.2 ≥ y.2
    · rw [insertDesc, if_pos h, List.sorted_cons]
      refine ⟨?_, List.sorted_cons.mpr hl⟩
      intro b hb
      rcases List.mem_cons.mp hb with hb | hb
      · exact hb ▸ h
      · exact le_trans (hl.1 b hb) h
    · rw [insertDesc, if_neg h, List.sorted_cons]
      refine ⟨?_, ih hl.2⟩
      intro b hb
      rcases mem_insertDesc.mp hb with hb | hb
      · exact hb ▸ le_of_lt (lt_of_not_ge h)
      · exact hl.1 b hb

theorem sortDesc_sorted (l : List (String × ℚ)) :
    List.Sorted (fun a b : String × ℚ => a.2 ≥ b.2) (sortDesc l) := by
  induction l with
  | nil => simp [sortDesc]
  | cons x xs ih => exact insertDesc_sorted ih

theorem insertDesc_filter (x : String × ℚ) (l : List (String × ℚ)) (s : ℚ) :
    (insertDesc x l).filter (fun a => a.2 = s)
      = if x.2 = s then x :: l.filter (fun a => a.2 = s)
        else l.filter (fun a => a.2 = s) := by
  induction l with
  | nil => by_cases hx : x.2 = s <;> simp [insertDesc, hx]
  | cons y ys ih =>
    by_cases h : x.2 ≥ y.2
    · rw [insertDesc, if_pos h]
      by_cases hx : x.2 = s <;> simp [hx, List.filter_cons]
    · rw [insertDesc, if_neg h, List.filter_cons, ih]
      have hy : y.2 > x.2 := lt_of_not_ge h
      by_cases hx : x.2 = s
      · have hys : ¬ (y.2 = s) := by
          intro hc
          exact absurd (hx ▸ hc) (ne_of_gt hy)
        simp [hx, hys, List.filter_cons]
      · by_cases hys : y.2 = s <;> simp [hx, hys, List.filter_cons]

theorem sortDesc_filter (l : List (String × ℚ)) (s : ℚ) :
    (sortDesc l).filter (fun a => a.2 = s) = l.filter (fun a => a.2 = s) := by
  induction l with
  | nil => rfl
  | cons x xs ih =>
    rw [sortDesc, insertDesc_filter]
    by_cases hx : x.2 = s <;> simp [hx, ih]

/-- C2: `rank` returns exactly `min 5 |results|` entries, sorted by score
descending, and for every score the entries carrying that score form a
prefix of the input entries carrying it — equal-scored entries keep their
relative input order (stable tie-break). -/
theorem C2_rank (results : List (String × ℚ)) :
    (rank results).length = min 5 results.length ∧
    List.Sorted (fun a b : String × ℚ => a.2 ≥ b.2) (rank results) ∧
    ∀ s : ℚ, ∃ t, (rank results).filter (fun a => a.2 = s) ++ t
      = results.filter (fun a => a.2 = s) := by
  refine ⟨?_, ?_, ?_⟩
  · simp [rank, List.length_take, sortDesc_length]
  · exact List.Pairwise.sublist (List.take_sublist 5 _) (sortDesc_sorted results)
  · intro s
    refine ⟨((sortDesc results).drop 5).filter (fun a => a.2 = s), ?_⟩
    unfold rank
    rw [← List.filter_append, List.take_append_drop, sortDesc_filter]

/-- C1: the risk classification is: score > 150 yields High;
80 < score ≤ 150 yields Moderate; score ≤ 80 yields Low; the exact
boundary behaviour at 80 and 150 is as claimed:
classify (150 + 1/10000) = High, classify 150 = Moderate,
classify (80 + 1/10000) = Moderate, classify 80 = Low. -/
theorem C1_classify (score : ℚ) :
    (score > 150 → classify score = .High) ∧
    (80 < score ∧ score ≤ 150 → classify score = .Moderate) ∧
    (score ≤ 80 → classify score = .Low) ∧
    classify (150 + 1/10000) = .High ∧
    classify 150 = .Moderate ∧
    classify (80 + 1/10000) = .Moderate ∧
    classify 80 = .Low := by
  refine ⟨fun h => ?_, fun h => ?_, fun h => ?_, ?_, ?_, ?_, ?_⟩
  · simp [classify, h]
  · simp [classify, h.1, not_lt.mpr h.2]
  · have h1 : ¬ (score > 150) := by linarith
    have h2 : ¬ (score > 80) := by linarith
    simp [classify, h1, h2]
  · norm_num [classify]
  · norm_num [classify]
  · norm_num [classify]
  · norm_num [classify]

/-- Witness for C1 at concrete scores: 200 is High, 100 is Moderate,
50 is Low, and the four boundary evaluations hold. -/
theorem C1_classify_witness :
    classify 200 = .High ∧ classify 100 = .Moderate ∧ classify 50 = .Low ∧
    classify (150 + 1/10000) = .High ∧ classify 150 = .Moderate ∧
    classify (80 + 1/10000) = .Moderate ∧ classify 80 = .Low := by
  refine ⟨(C1_classify 200).1 (by norm_num),
    (C1_classify 100).2.1 (by norm_num),
    (C1_classify 50).2.2.1 (by norm_num),
    (C1_classify 0).2.2.2.1, (C1_classify 0).2.2.2.2.1,
    (C1_classify 0).2.2.2.2.2.1, (C1_classify 0).2.2.2.2.2.2⟩

/-- Column assignment `df[col] = v` on a one-row DataFrame: replaces the
value of an existing column in place, or appends a new column at the end
(pandas semantics, used at `app.py:144-145`). -/
def setCol : List (String × Val) → String → Val → List (String × Val)
  | [], k, v => [(k, v)]
  | (k', v') :: rest, k, v =>
    if k' = k then (k, v) :: rest else (k', v') :: setCol rest k v

/-- The four UI-controlled columns of the base row (`app.py:137-142`). -/
def uiKeys : List String := ["state", "category", "type", "year"]

/-- The base one-row DataFrame built by `pd.DataFrame({...})` at
`app.py:137-142`. -/
def baseRow (state category crime_type : String) (year : ℚ) :
    List (String × Val) :=
  [("state", .str state), ("category", .str category),
   ("type", .str crime_type), ("year", .num year)]

/-- The defaults-merge loop `for col, val in DEFAULTS.items():
input_df[col] = val` at `app.py:144-145`. -/
def applyDefaults (defaults : List (String × Val))
    (row : List (String × Val)) : List (String × Val) :=
  defaults.foldl (fun r kv => setCol r kv.1 kv.2) row

/-- Request building (`app.py:137-145`): base row, then defaults merged
in by column assignment. -/
def build (state category crime_type : String) (year : ℚ)
    (defaults : List (String × Val)) : List (String × Val) :=
  applyDefaults defaults (baseRow state category crime_type year)

theorem lookup_cons_of_ne {a k : String} {b : Val} {es : List (String × Val)}
    (h : a ≠ k) : ((k, b) :: es).lookup a = es.lookup a := by
  rw [List.lookup_cons, beq_false_of_ne h]

theorem lookup_setCol_self (row : List (String × Val)) (k : String) (v : Val) :
    List.lookup k (setCol row k v) = some v := by
  induction row with
  | nil => simp [setCol]
  | cons kv rest ih =>
    obtain ⟨k', v'⟩ := kv
    by_cases h : k' = k
    · subst h
      simp [setCol]
    · simp only [setCol]
      rw [if_neg h, lookup_cons_of_ne (Ne.symm h), ih]

theorem lookup_setCol_ne (row : List (String × Val)) (k k' : String) (v : Val)
    (h : k' ≠ k) :
    List.lookup k' (setCol row k v) = List.lookup k' row := by
  induction row with
  | nil => simp [setCol, lookup_cons_of_ne h]
  | cons kv rest ih =>
    obtain ⟨k'', v''⟩ := kv
    by_cases hk : k'' = k
    · subst hk
      simp only [setCol, eq_self_iff_true, if_true]
      rw [lookup_cons_of_ne h, lookup_cons_of_ne h]
    · simp only [setCol]
      rw [if_neg hk]
      by_cases h2 : k' = k''
      · subst h2
        simp
      · rw [lookup_cons_of_ne h2, lookup_cons_of_ne h2, ih]

theorem lookup_isSome_iff (k : String) (row : List (String × Val)) :
    (List.lookup k row).isSome ↔ k ∈ row.map Prod.fst := by
  induction row with
  | nil => simp
  | cons kv rest ih =>
    obtain ⟨k', v'⟩ := kv
    by_cases h : k' = k
    · subst h
      simp
    · rw [lookup_cons_of_ne (Ne.symm h)]
      simp only [List.map_cons, List.mem_cons]
      rw [ih]
      constructor
      · exact Or.inr
      · rintro (hc | hc)
        · exact absurd hc.symm h
        · exact hc

theorem applyDefaults_lookup_notmem (ds : List (String × Val))
    (row : List (String × Val)) (k : String)
    (h : ∀ kv ∈ ds, kv.1 ≠ k) :
    List.lookup k (applyDefaults ds row) = List.lookup k row := by
  induction ds generalizing row with
  | nil => rfl
  | cons d ds ih =>
    show List.lookup k (applyDefaults ds (setCol row d.1 d.2)) = _
    rw [ih _ fun kv hkv => h kv (List.mem_cons_of_mem _ hkv)]
    exact lookup_setCol_ne _ _ _ _ (Ne.symm (h d (List.mem_cons_self _ _)))

theorem applyDefaults_lookup_mem (ds : List (String × Val))
    (row : List (String × Val)) (k : String) (v : Val)
    (hnodup : (ds.map Prod.fst).Nodup) (hmem : (k, v) ∈ ds) :
    List.lookup k (applyDefaults ds row) = some v := by
  induction ds generalizing row with
  | nil => cases hmem
  | cons d ds ih =>
    rw [List.map_cons, List.nodup_cons] at hnodup
    rcases List.mem_cons.mp hmem with h | h
    · show List.lookup k (applyDefaults ds (setCol row d.1 d.2)) = some v
      have hk : ∀ kv ∈ ds, kv.1 ≠ k := by
        intro kv hkv hc
        apply hnodup.1
        have hm : kv.1 ∈ List.map Prod.fst ds := List.mem_map_of_mem Prod.fst hkv
        rw [hc] at hm
        rw [← h]
        exact hm
      rw [applyDefaults_lookup_notmem _ _ _ hk, ← h]
      exact lookup_setCol_self _ _ _
    · exact ih _ hnodup.2 h

theorem applyDefaults_lookup_isSome (ds : List (String × Val))
    (row : List (String × Val)) (k : String) :
    (List.lookup k (applyDefaults ds row)).isSome
      ↔ k ∈ ds.map Prod.fst ∨ (List.lookup k row).isSome := by
  induction ds generalizing row with
  | nil => simp [applyDefaults]
  | cons d ds ih =>
    show (List.lookup k (applyDefaults ds (setCol row d.1 d.2))).isSome ↔ _
    rw [ih]
    by_cases h : k = d.1
    · subst h
      simp [lookup_isSome_iff, lookup_setCol_self]
    · rw [lookup_setCol_ne _ _ _ _ h]
      simp only [List.map_cons, List.mem_cons]
      tauto

/-- C3 (amended): provided the Defaults keys avoid the four UI-controlled
keys (the spec's by-construction invariant) and are duplicate-free, the
built row carries the user-supplied values on the four UI-controlled
columns, every default key carries its default value, and the key set is
exactly the union of the UI keys and the Defaults keys. -/
theorem C3_build (state category crime_type : String) (year : ℚ)
    (defaults : List (String × Val))
    (hdisj : ∀ kv ∈ defaults, kv.1 ∉ uiKeys)
    (hnodup : (defaults.map Prod.fst).Nodup) :
    List.lookup "state" (build state category crime_type year defaults)
      = some (.str state) ∧
    List.lookup "category" (build state category crime_type year defaults)
      = some (.str category) ∧
    List.lookup "type" (build state category crime_type year defaults)
      = some (.str crime_type) ∧
    List.lookup "year" (build state category crime_type year defaults)
      = some (.num year) ∧
    (∀ k v, (k, v) ∈ defaults →
      List.lookup k (build state category crime_type year defaults) = some v) ∧
    (∀ k, (List.lookup k (build state category crime_type year defaults)).isSome
      ↔ k ∈ uiKeys ∨ k ∈ defaults.map Prod.fst) := by
  have hui : ∀ k ∈ uiKeys, ∀ kv ∈ defaults, kv.1 ≠ k := by
    intro k hk kv hkv hc
    exact hdisj kv hkv (hc ▸ hk)
  refine ⟨?_, ?_, ?_, ?_, ?_, ?_⟩
  · rw [build, applyDefaults_lookup_notmem _ _ _ (hui _ (by simp [uiKeys]))]
    rfl
  · rw [build, applyDefaults_lookup_notmem _ _ _ (hui _ (by simp [uiKeys]))]
    rfl
  · rw [build, applyDefaults_lookup_notmem _ _ _ (hui _ (by simp [uiKeys]))]
    rfl
  · rw [build, applyDefaults_lookup_notmem _ _ _ (hui _ (by simp [uiKeys]))]
    rfl
  · intro k v hkv
    exact applyDefaults_lookup_mem _ _ _ _ hnodup hkv
  · intro k
    rw [build, applyDefaults_lookup_isSome, lookup_isSome_iff]
    simp only [baseRow, uiKeys, List.map_cons, List.map_nil]
    tauto

/-- Witness for C3 at the claim's example: build with state="X",
category="Y", crime_type="Z", year=2027 and defaults {pop: 100} yields a
row where pop is 100, year is 2027 and the key "extra" is absent. -/
theorem C3_build_witness :
    List.lookup "pop" (build "X" "Y" "Z" 2027 [("pop", Val.num 100)])
      = some (Val.num 100) ∧
    List.lookup "year" (build "X" "Y" "Z" 2027 [("pop", Val.num 100)])
      = some (Val.num 2027) ∧
    ¬ (List.lookup "extra" (build "X" "Y" "Z" 2027 [("pop", Val.num 100)])).isSome := by
  have h := C3_build "X" "Y" "Z" 2027 [("pop", Val.num 100)]
    (by decide) (by decide)
  refine ⟨h.2.2.2.2.1 "pop" (Val.num 100) (by simp), h.2.2.2.1, ?_⟩
  rw [h.2.2.2.2.2 "extra"]
  decide

/-- C3 counterexample: the claim quantifies over every Defaults mapping
and asserts Defaults never override the UI-controlled fields, but the
merge loop assigns `input_df[col] = val` unconditionally, so a default
keyed "year" replaces the user-supplied year. -/
theorem C3_counterexample :
    List.lookup "year" (build "X" "Y" "Z" 2027 [("year", Val.num 0)])
      = some (Val.num 0) ∧ Val.num 0 ≠ Val.num 2027 := by
  constructor
  · rfl
  · intro hc
    rw [Val.num.injEq] at hc
    norm_num at hc

/-- Column selection `input_df[model.feature_name_]` (`app.py:151`):
pandas returns the requested columns in exactly the requested order,
raises a KeyError naming a requested column absent from the frame, and
silently drops frame columns that were not requested. -/
def align (row : List (String × Val)) : List String → Except String (List Val)
  | [] => .ok []
  | n :: ns =>
    match List.lookup n row with
    | some v =>
      match align row ns with
      | .ok vs => .ok (v :: vs)
      | .error e => .error e
    | none => .error ("MissingFeature: " ++ n)

theorem lookup_append_of_some {n : String} {v : Val}
    {l₁ l₂ : List (String × Val)} (h : List.lookup n l₁ = some v) :
    List.lookup n (l₁ ++ l₂) = some v := by
  induction l₁ with
  | nil => cases h
  | cons kv rest ih =>
    obtain ⟨k', v'⟩ := kv
    by_cases hk : n = k'
    · subst hk
      simpa using h
    · rw [List.cons_append, lookup_cons_of_ne hk]
      rw [lookup_cons_of_ne hk] at h
      exact ih h

theorem lookup_append_of_none {n : String}
    {l₁ l₂ : List (String × Val)} (h : List.lookup n l₁ = none) :
    List.lookup n (l₁ ++ l₂) = List.lookup n l₂ := by
  induction l₁ with
  | nil => rfl
  | cons kv rest ih =>
    obtain ⟨k', v'⟩ := kv
    by_cases hk : n = k'
    · subst hk
      simp at h
    · rw [List.cons_append, lookup_cons_of_ne hk]
      rw [lookup_cons_of_ne hk] at h
      exact ih h

theorem lookup_eq_none_of_notkey {n : String} {l : List (String × Val)}
    (h : n ∉ l.map Prod.fst) : List.lookup n l = none := by
  by_contra hc
  exact h ((lookup_isSome_iff n l).mp (Option.isSome_iff_ne_none.mpr hc))

/-- C4 (alignment): when every declared feature is a key of the row,
alignment succeeds and returns exactly the declared-order values; when the
Model declares a feature absent from the row, alignment fails with an
error; extra row fields whose keys the Model does not declare never change
the result (alignment is a projection). -/
theorem C4_align (row : List (String × Val)) (names : List String) :
    ((∀ n ∈ names, (List.lookup n row).isSome) →
      ∃ vs, align row names = .ok vs ∧ vs.length = names.length ∧
        ∀ (i : ℕ) (n : String), names[i]? = some n → vs[i]? = List.lookup n row) ∧
    ((∃ n ∈ names, List.lookup n row = none) →
      ∃ e, align row names = .error e) ∧
    (∀ extra : List (String × Val), (∀ kv ∈ extra, kv.1 ∉ names) →
      align (row ++ extra) names = align row names) := by
  refine ⟨?_, ?_, ?_⟩
  · intro hall
    induction names with
    | nil => exact ⟨[], rfl, rfl, by simp⟩
    | cons n ns ih =>
      obtain ⟨v, hv⟩ := Option.isSome_iff_exists.mp
        (hall n (List.mem_cons_self _ _))
      obtain ⟨vs, hvs, hlen, hidx⟩ :=
        ih fun m hm => hall m (List.mem_cons_of_mem _ hm)
      refine ⟨v :: vs, ?_, by simpa using hlen, ?_⟩
      · rw [align, hv, hvs]
      · intro i m hm
        match i with
        | 0 =>
          simp only [List.getElem?_cons_zero, Option.some.injEq] at hm
          subst hm
          simpa using hv.symm
        | i + 1 =>
          simp only [List.getElem?_cons_succ] at hm ⊢
          exact hidx i m hm
  · rintro ⟨n, hn, hnone⟩
    induction names with
    | nil => cases hn
    | cons m ms ih =>
      rcases List.mem_cons.mp hn with h | h
      · subst h
        exact ⟨_, by rw [align, hnone]⟩
      · rw [align]
        cases hm : List.lookup m row with
        | none => exact ⟨_, rfl⟩
        | some v =>
          obtain ⟨e, he⟩ := ih h
          rw [he]
          exact ⟨e, rfl⟩
  · intro extra hextra
    induction names with
    | nil => rfl
    | cons n ns ih =>
      have hns : ∀ kv ∈ extra, kv.1 ∉ ns := by
        intro kv hkv hc
        exact hextra kv hkv (List.mem_cons_of_mem _ hc)
      have hn : List.lookup n (row ++ extra) = List.lookup n row := by
        cases hrow : List.lookup n row with
        | some v => exact lookup_append_of_some hrow
        | none =>
          rw [lookup_append_of_none hrow]
          apply lookup_eq_none_of_notkey
          intro hc
          obtain ⟨kv, hkv, hfst⟩ := List.mem_map.mp hc
          exact hextra kv hkv (hfst ▸ List.mem_cons_self _ _)
      rw [align, align, hn, ih hns]

/-- Witness for C4 at the claim's example: the row
{a:1, b:2, c:3, d:99} aligned to feature_name_=[a,b,c] succeeds in
declared order, appending the undeclared field d changes nothing, and a
declared feature missing from the row makes alignment fail. -/
theorem C4_align_witness :
    (∃ vs, align
        [("a", Val.num 1), ("b", Val.num 2), ("c", Val.num 3), ("d", Val.num 99)]
        ["a", "b", "c"] = .ok vs ∧ vs.length = 3 ∧
      ∀ (i : ℕ) (n : String), (["a", "b", "c"] : List String)[i]? = some n →
        vs[i]? = List.lookup n
          [("a", Val.num 1), ("b", Val.num 2), ("c", Val.num 3), ("d", Val.num 99)]) ∧
    align ([("a", Val.num 1), ("b", Val.num 2), ("c", Val.num 3)] ++ [("d", Val.num 99)])
        ["a", "b", "c"]
      = align [("a", Val.num 1), ("b", Val.num 2), ("c", Val.num 3)] ["a", "b", "c"] ∧
    (∃ e, align [("a", Val.num 1), ("b", Val.num 2)] ["a", "b", "missing_col"]
      = .error e) := by
  refine ⟨?_, ?_, ?_⟩
  · exact (C4_align _ ["a", "b", "c"]).1 (by decide)
  · exact (C4_align _ ["a", "b", "c"]).2.2 [("d", Val.num 99)] (by decide)
  · exact (C4_align _ ["a", "b", "missing_col"]).2.1 ⟨"missing_col", by decide, by decide⟩

/-- `MODEL_PATH = os.path.join(BASE_DIR, "crime_model.pkl")`
(`app.py:21`). -/
def MODEL_PATH (baseDir : String) : String := baseDir ++ "/crime_model.pkl"

/-- `ENCODER_PATH = os.path.join(BASE_DIR, "label_encoders.pkl")`
(`app.py:22`). -/
def ENCODER_PATH (baseDir : String) : String := baseDir ++ "/label_encoders.pkl"

/-- `DEFAULT_PATH = os.path.join(BASE_DIR, "defaults.pkl")`
(`app.py:23`). -/
def DEFAULT_PATH (baseDir : String) : String := baseDir ++ "/defaults.pkl"

/-- `load_model` (`app.py:29-33`): when the file is absent it shows
`st.error` with a message carrying the path and raises `st.stop()`,
halting the page (modelled as `.error msg`); otherwise it returns the
deserialized artifact (abstracted to `Unit`). -/
def load_model (baseDir : String) (fsHas : String → Bool) :
    Except String Unit :=
  if fsHas (MODEL_PATH baseDir) then .ok ()
  else .error ("⚠️ Model file not found at:\n" ++ MODEL_PATH baseDir)

/-- `load_encoders` (`app.py:36-40`): absence shows a generic message
(no path) and halts. -/
def load_encoders (baseDir : String) (fsHas : String → Bool) :
    Except String Unit :=
  if fsHas (ENCODER_PATH baseDir) then .ok ()
  else .error "⚠️ Label encoders file not found."

/-- `load_defaults` (`app.py:43-47`): absence shows a message naming
only the file name, not the expected path, and halts. -/
def load_defaults (baseDir : String) (fsHas : String → Bool) :
    Except String Unit :=
  if fsHas (DEFAULT_PATH baseDir) then .ok ()
  else .error "⚠️ defaults.pkl not found."

/-- Whether `needle` occurs at the start of `hay` (character lists). -/
def startsWithChars : List Char → List Char → Bool
  | _, [] => true
  | [], _ :: _ => false
  | a :: as, b :: bs => a = b && startsWithChars as bs

/-- Whether `needle` occurs anywhere inside `hay` (character lists). -/
def containsChars : List Char → List Char → Bool
  | [], needle => needle.isEmpty
  | a :: t, needle => startsWithChars (a :: t) needle || containsChars t needle

/-- Whether the string `needle` occurs inside the string `hay`: used to
state "the error message displays the missing path". -/
def strContains (hay needle : String) : Bool :=
  containsChars hay.data needle.data

theorem startsWithChars_append (p rest : List Char) :
    startsWithChars (p ++ rest) p = true := by
  induction p with
  | nil => simp [startsWithChars]
  | cons a as ih => simp [startsWithChars, ih]

theorem containsChars_suffix (c p : List Char) :
    containsChars (c ++ p) p = true := by
  induction c with
  | nil =>
    cases p with
    | nil => rfl
    | cons a t =>
      rw [List.nil_append]
      have h := startsWithChars_append (a :: t) []
      rw [List.append_nil] at h
      simp [containsChars, h]
  | cons a c' ih => simp [containsChars, ih]

theorem strContains_suffix (pre path : String) :
    strContains (pre ++ path) path = true := by
  rw [strContains, String.data_append]
  exact containsChars_suffix pre.data path.data

/-- C5 (amended): for each artifact kind, absence of the file at its
expected path makes the loader fail with a terminal, user-visible error
that halts the page; the Model loader's message displays the missing
path, while the EncoderBank and Defaults loaders show generic messages
that do not carry the expected path. -/
theorem C5_load (baseDir : String) (fsHas : String → Bool) :
    (fsHas (MODEL_PATH baseDir) = false →
      ∃ msg, load_model baseDir fsHas = .error msg ∧
        strContains msg (MODEL_PATH baseDir) = true) ∧
    (fsHas (ENCODER_PATH baseDir) = false →
      ∃ msg, load_encoders baseDir fsHas = .error msg) ∧
    (fsHas (DEFAULT_PATH baseDir) = false →
      ∃ msg, load_defaults baseDir fsHas = .error msg) := by
  refine
    ⟨fun h => ⟨"⚠️ Model file not found at:\n" ++ MODEL_PATH baseDir, ?_,
        strContains_suffix _ _⟩,
      fun h => ⟨"⚠️ Label encoders file not found.", ?_⟩,
      fun h => ⟨"⚠️ defaults.pkl not found.", ?_⟩⟩
  · simp [load_model, h]
  · simp [load_encoders, h]
  · simp [load_defaults, h]

/-- Witness for C5 on an empty file system with BASE_DIR = "/app": all
three loaders halt with an error, and the model loader's message carries
the missing path. -/
theorem C5_load_witness :
    (∃ msg, load_model "/app" (fun _ => false) = .error msg ∧
      strContains msg (MODEL_PATH "/app") = true) ∧
    (∃ msg, load_encoders "/app" (fun _ => false) = .error msg) ∧
    (∃ msg, load_defaults "/app" (fun _ => false) = .error msg) := by
  have h := C5_load "/app" (fun _ => false)
  exact ⟨h.1 rfl, h.2.1 rfl, h.2.2 rfl⟩

/-- C5 counterexample: the encoders loader's error message is the fixed
string "⚠️ Label encoders file not found.", which does not display the
missing path `/app/label_encoders.pkl`, refuting the claim that every
artifact kind's error displays the missing path. -/
theorem C5_counterexample :
    load_encoders "/app" (fun _ => false)
      = .error "⚠️ Label encoders file not found." ∧
    strContains "⚠️ Label encoders file not found." (ENCODER_PATH "/app")
      = false := by
  constructor
  · rfl
  · rfl

/-- One UI-triggered call of a cached loader, with whether this call ran
the underlying deserialization. -/
structure CallLog (α : Type) where
  result : α
  didLoad : Bool

/-- Modelled from the spec: the `@st.cache_resource` decorator
(`app.py:28,35,42`) is Streamlit library code absent from this
repository; per the spec it memoizes the decorated loader per process
lifetime, keyed by artifact kind. `runCalls loader n cache` runs `n`
UI-triggered calls against one cache cell: a hit returns the cached
object without loading, a miss runs the loader once and stores the
result. -/
def runCalls {α : Type} (loader : Unit → α) : Nat → Option α → List (CallLog α)
  | 0, _ => []
  | n + 1, some a => ⟨a, false⟩ :: runCalls loader n (some a)
  | n + 1, none => ⟨loader (), true⟩ :: runCalls loader n (some (loader ()))

theorem runCalls_cached {α : Type} (loader : Unit → α) (n : Nat) (a : α) :
    runCalls loader n (some a) = List.replicate n ⟨a, false⟩ := by
  induction n with
  | zero => rfl
  | succ m ih => simp [runCalls, ih, List.replicate_succ]

/-- C6: however many times the UI triggers the loading path, the artifact
is deserialized exactly `min n 1` times — at most once per process
lifetime — and every call returns the same loaded object. -/
theorem C6_cache {α : Type} (loader : Unit → α) (n : Nat) :
    ((runCalls loader n none).countP (fun c => c.didLoad) = min n 1) ∧
    (∀ c ∈ runCalls loader n none, c.result = loader ()) := by
  cases n with
  | zero => exact ⟨rfl, by intro c hc; cases hc⟩
  | succ m =>
    rw [runCalls, runCalls_cached]
    constructor
    · rw [List.countP_cons]
      have hrep : (List.replicate m (⟨loader (), false⟩ : CallLog α)).countP
          (fun c => c.didLoad) = 0 := by
        induction m with
        | zero => rfl
        | succ j ih => simp [List.replicate_succ, List.countP_cons, ih]
      simp [hrep]
    · intro c hc
      rcases List.mem_cons.mp hc with h | h
      · rw [h]
      · rw [(List.eq_of_mem_replicate h : c = ⟨loader (), false⟩)]

/-- Modelled from the spec: the Encoder artifact (a fitted
`LabelEncoder`, external to this repository) exposes `classes_`, the
fixed ordered vocabulary, and `transform`, which maps a label to its
integer code — its index in `classes_`. `idxOfAux label cs n` is the
index search, offset by `n`. -/
def idxOfAux (label : String) : List String → Nat → Option Nat
  | [], _ => none
  | c :: cs, i => if c = label then some i else idxOfAux label cs (i + 1)

/-- Modelled from the spec: `encode(feature, label)` — the
`encoders[...].transform` call at `app.py:147-149` — returns the label's
integer code and fails with UnknownLabel for labels outside the fixed
vocabulary (sklearn raises rather than clamping). -/
def transform1 (classes : List String) (label : String) : Except String Nat :=
  match idxOfAux label classes 0 with
  | some i => .ok i
  | none => .error ("UnknownLabel: " ++ label)

theorem idxOfAux_eq_none {label : String} {cs : List String} (n : Nat)
    (h : label ∉ cs) : idxOfAux label cs n = none := by
  induction cs generalizing n with
  | nil => rfl
  | cons c cs' ih =>
    have hc : ¬ (c = label) := fun hc =>
      h (hc ▸ List.mem_cons_self _ _)
    rw [idxOfAux, if_neg hc]
    exact ih _ fun hm => h (List.mem_cons_of_mem _ hm)

theorem idxOfAux_spec {label : String} {cs : List String} {n i : Nat}
    (h : idxOfAux label cs n = some i) :
    ∃ j, i = n + j ∧ cs[j]? = some label := by
  induction cs generalizing n with
  | nil => cases h
  | cons c cs' ih =>
    by_cases hc : c = label
    · rw [idxOfAux, if_pos hc] at h
      have hni : n = i := Option.some.inj h
      exact ⟨0, by omega, by simp [hc]⟩
    · rw [idxOfAux, if_neg hc] at h
      obtain ⟨j, hj, hget⟩ := ih h
      exact ⟨j + 1, by omega, by simpa using hget⟩

theorem idxOfAux_isSome {label : String} {cs : List String} (n : Nat)
    (h : label ∈ cs) : ∃ i, idxOfAux label cs n = some i := by
  induction cs generalizing n with
  | nil => cases h
  | cons c cs' ih =>
    by_cases hc : c = label
    · exact ⟨n, by rw [idxOfAux, if_pos hc]⟩
    · rcases List.mem_cons.mp h with heq | hm
      · exact absurd heq.symm hc
      · obtain ⟨i, hi⟩ := ih (n + 1) hm
        exact ⟨i, by rw [idxOfAux, if_neg hc, hi]⟩

/-- C7: for a label inside the encoder's fixed vocabulary, `transform1`
returns the label's integer code — an index of `classes_` holding exactly
that label; for a label outside the vocabulary it fails with the
UnknownLabel error, never a clamped or silently-wrong code. -/
theorem C7_encode (classes : List String) (label : String) :
    (label ∈ classes → ∃ i, transform1 classes label = .ok i ∧
      classes[i]? = some label) ∧
    (label ∉ classes →
      transform1 classes label = .error ("UnknownLabel: " ++ label)) := by
  constructor
  · intro h
    obtain ⟨i, hi⟩ := idxOfAux_isSome 0 h
    obtain ⟨j, hj, hget⟩ := idxOfAux_spec hi
    refine ⟨i, ?_, ?_⟩
    · rw [transform1, hi]
    · rw [show i = j by omega]
      exact hget
  · intro h
    rw [transform1, idxOfAux_eq_none 0 h]

/-- Witness for C7: over the vocabulary ["assault", "burglary"], the
label "burglary" encodes to an index holding "burglary", and the
out-of-vocabulary label "arson" fails with the UnknownLabel error. -/
theorem C7_encode_witness :
    (∃ i, transform1 ["assault", "burglary"] "burglary" = .ok i ∧
      (["assault", "burglary"] : List String)[i]? = some "burglary") ∧
    transform1 ["assault", "burglary"] "arson"
      = .error ("UnknownLabel: " ++ "arson") := by
  exact ⟨(C7_encode ["assault", "burglary"] "burglary").1 (by decide),
    (C7_encode ["assault", "burglary"] "arson").2 (by decide)⟩

/-- The EncoderBank artifact: one fixed vocabulary (`classes_`) per
categorical feature (`app.py:122-133,147-149`). -/
structure Encoders where
  state : List String
  category : List String
  type : List String

/-- One column-encoding assignment
`input_df[f] = encoders[f].transform(input_df[f])` (`app.py:147-149`):
the column's current string label is transformed to its integer code and
written back; a missing column or an unknown label raises, and the
exception propagates. -/
def encodeCol (classes : List String) (k : String)
    (row : List (String × Val)) : Except String (List (String × Val)) :=
  match List.lookup k row with
  | some (Val.str s) =>
    match transform1 classes s with
    | .ok i => .ok (setCol row k (Val.num i))
    | .error e => .error e
  | _ => .error ("KeyError: " ++ k)

/-- The body of the per-crime-type loop (`app.py:135-154`): build the
row, encode the three categorical columns, align the columns to
`model.feature_name_` and score; any exception propagates out. The
scoring function itself (`model.predict`) is the loaded LightGBM model,
abstracted as a pure function of the aligned values. -/
def scoreOne (enc : Encoders) (defaults : List (String × Val))
    (featureNames : List String) (predict : List Val → ℚ)
    (state category : String) (year : ℚ) (crime_type : String) :
    Except String (String × ℚ) := do
  let row0 := build state category crime_type year defaults
  let row1 ← encodeCol enc.state "state" row0
  let row2 ← encodeCol enc.category "category" row1
  let row3 ← encodeCol enc.type "type" row2
  match align row3 featureNames with
  | .ok vs => .ok (crime_type, predict vs)
  | .error e => .error e

/-- A Python for-loop appending one result per iteration, where a raised
exception aborts the whole loop: the semantics of the `for crime_type in
crime_types` loop at `app.py:135-154`. -/
def mapExcept {α β : Type} (f : α → Except String β) :
    List α → Except String (List β)
  | [] => .ok []
  | x :: xs =>
    match f x with
    | .error e => .error e
    | .ok y =>
      match mapExcept f xs with
      | .error e => .error e
      | .ok ys => .ok (y :: ys)

/-- The whole prediction run (`app.py:131-189`): score every candidate
crime type of the "type" vocabulary, and only if all succeed compute the
top-5 and the alert tier. -/
def predictPage (enc : Encoders) (defaults : List (String × Val))
    (featureNames : List String) (predict : List Val → ℚ)
    (state category : String) (year : ℚ) :
    Except String (List (String × ℚ) × Alert) :=
  match mapExcept
      (scoreOne enc defaults featureNames predict state category year)
      enc.type with
  | .ok results => .ok (rank results, emitAlert (rank results))
  | .error e => .error e

theorem mapExcept_error {α β : Type} {f : α → Except String β}
    {l : List α} {x : α} {e : String} (hx : x ∈ l) (hfx : f x = .error e) :
    ∃ e', mapExcept f l = .error e' := by
  induction l with
  | nil => cases hx
  | cons y ys ih =>
    rcases List.mem_cons.mp hx with h | h
    · subst h
      exact ⟨e, by rw [mapExcept, hfx]⟩
    · rw [mapExcept]
      cases hy : f y with
      | error e' => exact ⟨e', rfl⟩
      | ok v =>
        obtain ⟨e', he'⟩ := ih h
        rw [he']
        exact ⟨e', rfl⟩

/-- C8: if scoring any single candidate crime type fails, the whole run
fails — no top-5 list (and no alert) is produced from the candidates
scored before the failure. -/
theorem C8_abort (enc : Encoders) (defaults : List (String × Val))
    (featureNames : List String) (predict : List Val → ℚ)
    (state category : String) (year : ℚ) (ct : String) (e : String)
    (hmem : ct ∈ enc.type)
    (herr : scoreOne enc defaults featureNames predict state category year ct
      = .error e) :
    ∃ e', predictPage enc defaults featureNames predict state category year
      = .error e' := by
  obtain ⟨e', he'⟩ := mapExcept_error hmem herr
  exact ⟨e', by rw [predictPage, he']⟩

/-- Witness for C8: with feature_name_ declaring a feature that neither
the UI fields nor the (empty) defaults provide, scoring the only
candidate "theft" fails, and the whole prediction run fails. -/
theorem C8_abort_witness :
    ∃ e', predictPage ⟨["Sabah"], ["violent"], ["theft"]⟩ []
      ["missing_col"] (fun _ => 0) "Sabah" "violent" 2027 = .error e' := by
  refine C8_abort ⟨["Sabah"], ["violent"], ["theft"]⟩ [] ["missing_col"]
    (fun _ => 0) "Sabah" "violent" 2027 "theft" "MissingFeature: missing_col"
    (by decide) ?_
  rfl

/-- The Boolean test behind the High branch `score > 150`
(`app.py:167`). -/
def isHighB (x : String × ℚ) : Bool := decide (x.2 > 150)

/-- The Boolean test behind the Moderate branch: reached only when
`score > 150` failed and `score > 80` holds (`app.py:170`). -/
def isModB (x : String × ℚ) : Bool := !(decide (x.2 > 150)) && decide (x.2 > 80)

theorem foldlFlags (l : List (String × ℚ)) (a b : Bool) :
    l.foldl
      (fun f x =>
        if x.2 > 150 then (true, f.2)
        else if x.2 > 80 then (f.1, true)
        else f)
      (a, b)
    = (a || l.any isHighB, b || l.any isModB) := by
  induction l generalizing a b with
  | nil => simp
  | cons x xs ih =>
    rw [List.foldl_cons, List.any_cons, List.any_cons]
    by_cases h1 : x.2 > 150
    · rw [if_pos h1, ih]
      simp [isHighB, isModB, h1]
    · rw [if_neg h1]
      by_cases h2 : x.2 > 80
      · rw [if_pos h2, ih]
        simp [isHighB, isModB, h1, h2, Bool.or_assoc]
      · rw [ih]
        simp [isHighB, isModB, h1, h2]

theorem riskFlags_eq (l : List (String × ℚ)) :
    riskFlags l = (l.any isHighB, l.any isModB) := by
  rw [riskFlags, foldlFlags]
  simp

theorem emitAlert_eq (l : List (String × ℚ)) :
    emitAlert l = if l.any isHighB then .high
      else if l.any isModB then .moderate
      else .stable := by
  rw [emitAlert, riskFlags_eq]

theorem classify_eq_High (s : ℚ) : classify s = .High ↔ s > 150 := by
  rw [classify]
  by_cases h1 : s > 150
  · simp [h1]
  · by_cases h2 : s > 80 <;> simp [h1, h2]

theorem classify_eq_Moderate (s : ℚ) :
    classify s = .Moderate ↔ ¬ (s > 150) ∧ s > 80 := by
  rw [classify]
  by_cases h1 : s > 150
  · simp [h1]
  · by_cases h2 : s > 80 <;> simp [h1, h2]

/-- C9: the alert selection is priority-ordered over the top-5 labels:
the High alert is emitted iff some top-5 entry classifies High; the
Moderate alert iff none classifies High and some classifies Moderate;
the Stable notice iff neither occurs — so exactly one tier is emitted
per run and tiers are never cumulative. -/
theorem C9_alert (top5 : List (String × ℚ)) :
    (emitAlert top5 = .high ↔ ∃ x ∈ top5, classify x.2 = .High) ∧
    (emitAlert top5 = .moderate ↔
      (¬ ∃ x ∈ top5, classify x.2 = .High) ∧
        ∃ x ∈ top5, classify x.2 = .Moderate) ∧
    (emitAlert top5 = .stable ↔
      (¬ ∃ x ∈ top5, classify x.2 = .High) ∧
        ¬ ∃ x ∈ top5, classify x.2 = .Moderate) := by
  have hHiff : top5.any isHighB = true ↔ ∃ x ∈ top5, classify x.2 = .High := by
    simp [List.any_eq_true, isHighB, classify_eq_High]
  have hMiff : top5.any isModB = true ↔
      ∃ x ∈ top5, classify x.2 = .Moderate := by
    simp [List.any_eq_true, isModB, classify_eq_Moderate]
  rw [emitAlert_eq]
  by_cases hh : top5.any isHighB = true
  · have hex := hHiff.mp hh
    rw [if_pos hh]
    refine ⟨⟨fun _ => hex, fun _ => rfl⟩, ?_, ?_⟩
    · exact ⟨fun hc => Alert.noConfusion hc, fun hna => absurd hex hna.1⟩
    · exact ⟨fun hc => Alert.noConfusion hc, fun hna => absurd hex hna.1⟩
  · have hna : ¬ ∃ x ∈ top5, classify x.2 = .High :=
      fun hex => hh (hHiff.mpr hex)
    rw [if_neg hh]
    by_cases hm : top5.any isModB = true
    · have hmex := hMiff.mp hm
      rw [if_pos hm]
      refine ⟨?_, ⟨fun _ => ⟨hna, hmex⟩, fun _ => rfl⟩, ?_⟩
      · exact ⟨fun hc => Alert.noConfusion hc, fun hex => absurd hex hna⟩
      · exact ⟨fun hc => Alert.noConfusion hc, fun hno => absurd hmex hno.2⟩
    · have hnm : ¬ ∃ x ∈ top5, classify x.2 = .Moderate :=
        fun hex => hm (hMiff.mpr hex)
      rw [if_neg hm]
      refine ⟨?_, ?_, ⟨fun _ => ⟨hna, hnm⟩, fun _ => rfl⟩⟩
      · exact ⟨fun hc => Alert.noConfusion hc, fun hex => absurd hex hna⟩
      · exact ⟨fun hc => Alert.noConfusion hc, fun hex => absurd hex.2 hnm⟩

theorem mem_sortDesc {a : String × ℚ} {l : List (String × ℚ)} :
    a ∈ sortDesc l ↔ a ∈ l := by
  induction l with
  | nil => simp [sortDesc]
  | cons x xs ih => simp [sortDesc, mem_insertDesc, ih]

theorem any_sortDesc (l : List (String × ℚ)) (p : String × ℚ → Bool) :
    (sortDesc l).any p = l.any p := by
  cases h : l.any p
  · rw [List.any_eq_false] at h ⊢
    intro x hx
    exact h x (mem_sortDesc.mp hx)
  · rw [List.any_eq_true] at h ⊢
    obtain ⟨x, hx, hpx⟩ := h
    exact ⟨x, mem_sortDesc.mpr hx, hpx⟩

theorem any_take_of_sorted (l : List (String × ℚ))
    (hs : List.Sorted (fun a b : String × ℚ => a.2 ≥ b.2) l)
    (k : Nat) (hk : 0 < k) (c : ℚ) :
    (l.take k).any (fun x => decide (x.2 > c))
      = l.any (fun x => decide (x.2 > c)) := by
  cases h : l.any (fun x => decide (x.2 > c))
  · rw [List.any_eq_false] at h ⊢
    intro x hx
    exact h x ((List.take_sublist k l).subset hx)
  · rw [List.any_eq_true] at h ⊢
    obtain ⟨x, hx, hpx⟩ := h
    cases l with
    | nil => cases hx
    | cons y t =>
      refine ⟨y, ?_, ?_⟩
      · cases k with
        | zero => cases hk
        | succ m => simp [List.take_succ_cons]
      · rcases List.mem_cons.mp hx with heq | hxt
        · exact heq ▸ hpx
        · have hge := (List.sorted_cons.mp hs).1 x hxt
          simp only [decide_eq_true_eq] at hpx ⊢
          exact lt_of_lt_of_le hpx hge

theorem anyMod_eq_of_no_high (l : List (String × ℚ))
    (h : l.any isHighB = false) :
    l.any isModB = l.any (fun x => decide (x.2 > 80)) := by
  induction l with
  | nil => rfl
  | cons x xs ih =>
    rw [List.any_cons] at h
    rw [List.any_cons, List.any_cons]
    obtain ⟨h1, h2⟩ := Bool.or_eq_false_iff.mp h
    have hx : isModB x = decide (x.2 > 80) := by
      rw [isModB, isHighB] at *
      rw [h1]
      simp
    rw [hx, ih h2]

/-- C10: the alert tier computed from the top-5 entries equals the tier
computed over all scored crime types: the descending sort puts any
above-threshold candidate into the top 5, so a High- or Moderate-risk
crime type can never be hidden outside the displayed top 5. -/
theorem C10_alert_complete (results : List (String × ℚ)) :
    emitAlert (rank results) = emitAlert results := by
  have hH : (rank results).any isHighB = results.any isHighB := by
    have h1 : (rank results).any isHighB
        = ((sortDesc results).take 5).any (fun x => decide (x.2 > 150)) := rfl
    have h2 : results.any (fun x => decide (x.2 > 150))
        = results.any isHighB := rfl
    rw [h1, any_take_of_sorted _ (sortDesc_sorted results) 5 (by norm_num) 150,
      any_sortDesc, h2]
  rw [emitAlert_eq, emitAlert_eq, hH]
  cases hres : results.any isHighB
  · have h80 : (rank results).any (fun x => decide (x.2 > 80))
        = results.any (fun x => decide (x.2 > 80)) := by
      rw [rank, any_take_of_sorted _ (sortDesc_sorted results) 5 (by norm_num) 80,
        any_sortDesc]
    rw [anyMod_eq_of_no_high _ (hH.trans hres),
      anyMod_eq_of_no_high _ hres, h80]
  · rfl

/-- Witness for C2 at a concrete result set with a tie at score 10. -/
theorem C2_rank_witness :
    (rank [("a", (10 : ℚ)), ("b", 20), ("c", 10)]).length
      = min 5 ([("a", (10 : ℚ)), ("b", 20), ("c", 10)]).length :=
  (C2_rank [("a", (10 : ℚ)), ("b", 20), ("c", 10)]).1

/-- Witness for C6 at three UI-triggered calls of one loader. -/
theorem C6_cache_witness :
    ((runCalls (fun _ : Unit => (7 : ℕ)) 3 none).countP
      (fun c => c.didLoad) = min 3 1) ∧
    (∀ c ∈ runCalls (fun _ : Unit => (7 : ℕ)) 3 none,
      c.result = (fun _ : Unit => (7 : ℕ)) ()) :=
  C6_cache (fun _ : Unit => (7 : ℕ)) 3

/-- Witness for C9 at a concrete singleton top-5. -/
theorem C9_alert_witness :
    emitAlert [("theft", (200 : ℚ))] = .high
      ↔ ∃ x ∈ [("theft", (200 : ℚ))], classify x.2 = .High :=
  (C9_alert [("theft", (200 : ℚ))]).1

/-- Witness for C10 at a concrete result set. -/
theorem C10_alert_complete_witness :
    emitAlert (rank [("a", (200 : ℚ)), ("b", 10)])
      = emitAlert [("a", (200 : ℚ)), ("b", 10)] :=
  C10_alert_complete [("a", (200 : ℚ)), ("b", 10)]

end CrimeApp
